import Mathlib

/-!
Verification of the OncoScan backend (FastAPI service under `backend/`):
shallow embedding of the authentication, prediction, admin and audit
operations, with theorems checking the documented behaviour.

Numeric values that the Python code manipulates as floats are modelled as
rationals; `random.random()` / `random.uniform(a, b)` outcomes appear as
explicitly-bounded parameters; I/O and library failures (database sessions,
JWT decoding, image decoding) appear as explicit outcome parameters.
-/

namespace OncoScan

/-! ## Python numeric primitives -/

/-- Python `round(x)` (banker's rounding: ties go to the even integer),
modelled on rationals. -/
def pyRoundHalfEven (q : ℚ) : ℤ :=
  if q - ⌊q⌋ < 1/2 then ⌊q⌋
  else if 1/2 < q - ⌊q⌋ then ⌊q⌋ + 1
  else if ⌊q⌋ % 2 = 0 then ⌊q⌋ else ⌊q⌋ + 1

/-- Python `round(x, 4)`. -/
def pyRound4 (q : ℚ) : ℚ := (pyRoundHalfEven (q * 10000) : ℚ) / 10000

/-- `max(0.0, min(1.0, prob))` from `ModelService.predict` (torch path). -/
def clamp01 (q : ℚ) : ℚ := max 0 (min 1 q)

lemma pyRoundHalfEven_le (q : ℚ) : (pyRoundHalfEven q : ℚ) ≤ q + 1/2 := by
  unfold pyRoundHalfEven
  split_ifs <;> push_cast <;>
    linarith [Int.floor_le q, Int.lt_floor_add_one q]

lemma le_pyRoundHalfEven (q : ℚ) : q - 1/2 ≤ (pyRoundHalfEven q : ℚ) := by
  unfold pyRoundHalfEven
  split_ifs <;> push_cast <;>
    linarith [Int.floor_le q, Int.lt_floor_add_one q]

lemma pyRound4_le (q : ℚ) : pyRound4 q ≤ q + 1/20000 := by
  unfold pyRound4
  have h := pyRoundHalfEven_le (q * 10000)
  linarith

lemma le_pyRound4 (q : ℚ) : q - 1/20000 ≤ pyRound4 q := by
  unfold pyRound4
  have h := le_pyRoundHalfEven (q * 10000)
  linarith

lemma clamp01_nonneg (q : ℚ) : 0 ≤ clamp01 q := le_max_left 0 (min 1 q)

lemma clamp01_le_one (q : ℚ) : clamp01 q ≤ 1 := by
  unfold clamp01
  apply max_le
  · norm_num
  · exact min_le_left 1 q

/-! ## Model service (`backend/model.py`)

`ModelService` dispatches between the `simulate` backend and the `torch`
delegate backend.  The loaded torch artifact is an external black box: the
scalar it returns for the current input is the `torchRawOutput` field.
`random.random()` inside the simulate branch is passed in as `base`. -/

inductive Backend
  | simulate
  | torch
deriving DecidableEq

inductive ModelErr
  | notLoaded
deriving DecidableEq

structure ModelService where
  backend : Backend
  loaded : Bool
  torchRawOutput : ℚ
deriving DecidableEq

structure Prediction where
  probability : ℚ
  primary_finding : String
deriving DecidableEq

/-- `"suspicious lesion" if prob >= 0.5 else "no acute findings"`. -/
def findingFor (prob : ℚ) : String :=
  if 1/2 ≤ prob then "suspicious lesion" else "no acute findings"

/-- `ModelService.predict` from `backend/model.py`: raises when the model is
not loaded; torch path clamps the delegate's scalar into `[0,1]`; simulate
path rounds `0.3 + 0.4 * random.random()` to 4 decimal places.  The image
argument is only forwarded to the external artifact, whose response is the
`torchRawOutput` field. -/
def ModelService.predict {Img : Type} (ms : ModelService) (base : ℚ) (_img : Img) :
    Except ModelErr Prediction :=
  if ms.loaded = false then .error .notLoaded
  else
    let prob : ℚ :=
      match ms.backend with
      | .torch => clamp01 ms.torchRawOutput
      | .simulate => pyRound4 (3/10 + 4/10 * base)
    .ok ⟨prob, findingFor prob⟩

/-- C4: the simulate-backend probability lies in `[0, 1]`. -/
lemma simulate_prob_bounds (base : ℚ) (h0 : 0 ≤ base) (h1 : base < 1) :
    0 ≤ pyRound4 (3/10 + 4/10 * base) ∧ pyRound4 (3/10 + 4/10 * base) ≤ 1 := by
  constructor
  · have h := le_pyRound4 (3/10 + 4/10 * base)
    linarith
  · have h := pyRound4_le (3/10 + 4/10 * base)
    linarith

/-- The threshold rule of `ModelService.predict`: finding label versus 0.5. -/
lemma findingFor_spec (p : ℚ) :
    (findingFor p = "suspicious lesion" ↔ 1/2 ≤ p) ∧
    (findingFor p ≠ "suspicious lesion" → findingFor p = "no acute findings") := by
  unfold findingFor
  split_ifs with h
  · exact ⟨⟨fun _ => h, fun _ => rfl⟩, fun hne => absurd rfl hne⟩
  · constructor
    · constructor
      · intro heq
        exact absurd heq (by decide)
      · intro hge
        exact absurd hge h
    · intro _
      rfl

/-- C4: For every result returned by `ModelService.predict` with the
simulator backend, the probability lies in `[0, 1]`, and the finding equals
`"suspicious lesion"` iff the probability is `≥ 0.5` (otherwise it is
`"no acute findings"`). -/
theorem claim_C4_simulator_prediction {Img : Type} (ms : ModelService) (base : ℚ)
    (img : Img) (pred : Prediction)
    (hb : ms.backend = .simulate) (h0 : 0 ≤ base) (h1 : base < 1)
    (hp : ms.predict base img = .ok pred) :
    (0 ≤ pred.probability ∧ pred.probability ≤ 1) ∧
    (pred.primary_finding = "suspicious lesion" ↔ 1/2 ≤ pred.probability) ∧
    (pred.primary_finding ≠ "suspicious lesion" →
      pred.primary_finding = "no acute findings") := by
  unfold ModelService.predict at hp
  split at hp
  · exact absurd hp (by simp)
  · rw [hb] at hp
    simp only [Except.ok.injEq] at hp
    subst hp
    exact ⟨simulate_prob_bounds base h0 h1,
      (findingFor_spec (pyRound4 (3/10 + 4/10 * base))).1,
      (findingFor_spec (pyRound4 (3/10 + 4/10 * base))).2⟩

/-- Witness for C4 at a concrete service state and `base = 0`. -/
theorem claim_C4_simulator_prediction_witness :
    (0 ≤ (⟨3/10, "no acute findings"⟩ : Prediction).probability ∧
      (⟨3/10, "no acute findings"⟩ : Prediction).probability ≤ 1) ∧
    ((⟨3/10, "no acute findings"⟩ : Prediction).primary_finding = "suspicious lesion" ↔
      1/2 ≤ (⟨3/10, "no acute findings"⟩ : Prediction).probability) ∧
    ((⟨3/10, "no acute findings"⟩ : Prediction).primary_finding ≠ "suspicious lesion" →
      (⟨3/10, "no acute findings"⟩ : Prediction).primary_finding = "no acute findings") :=
  @claim_C4_simulator_prediction Unit
    ⟨Backend.simulate, true, 0⟩ 0 () ⟨3/10, "no acute findings"⟩
    rfl (by norm_num) (by norm_num)
    (by norm_num [ModelService.predict, pyRound4, pyRoundHalfEven, findingFor])

/-! ## Users, fallback identities and login (`backend/auth.py`, `backend/main.py`)

Database rows are a list of `DbUser`; `dbOk = false` models the session /
query raising (the code swallows that and falls back).  Password hashing is
the external passlib context: `verify` is its `verify` function and
`demoHash` the pbkdf2 hash of `"securepass"` computed at import time. -/

structure DbUser where
  username : String
  full_name : Option String
  role : String
  disabled : Bool
  password_hash : String
deriving DecidableEq

/-- `session.exec(select(User).where(User.username == username)).first()`. -/
def firstUserByUsername (db : List DbUser) (u : String) : Option DbUser :=
  db.find? (fun x => x.username == u)

structure FakeUser where
  user_id : String
  hashed_password : String
  full_name : String
  disabled : Bool
deriving DecidableEq

/-- `FAKE_USERS_DB` from `backend/auth.py`: the single demo identity. -/
def FAKE_USERS_DB (demoHash : String) (u : String) : Option FakeUser :=
  if u == "doc_user" then
    some ⟨"doc_user", demoHash, "Dr. Alice Onco", false⟩
  else none

inductive LoginResult
  | token (sub : String)
  | missingCredentials
  | invalidCredentials
deriving DecidableEq

/-- `login_for_access_token` from `backend/main.py`.  Missing credentials →
400; then the DB path issues a token when the row is found and the password
verifies (any exception falls through); then the in-memory fallback issues a
token or fails 401.  No branch consults the `disabled` flag. -/
def login_for_access_token (verify : String → String → Bool) (dbOk : Bool)
    (db : List DbUser) (demoHash : String) (username password : String) :
    LoginResult :=
  if username = "" ∨ password = "" then .missingCredentials
  else
    let dbHit : Bool :=
      if dbOk then
        match firstUserByUsername db username with
        | some u => verify password u.password_hash
        | none => false
      else false
    if dbHit then .token username
    else
      match FAKE_USERS_DB demoHash username with
      | none => .invalidCredentials
      | some fu =>
          if verify password fu.hashed_password then .token username
          else .invalidCredentials

/-- A concrete verification function for counterexamples: the stored hash is
the password itself. -/
def verifyId (p h : String) : Bool := p == h

/-- A concrete disabled database row used in the C1 counterexample. -/
def malloryRow : DbUser := ⟨"mallory", some "Mallory M", "doctor", true, "pw"⟩

/-- C1 counterexample: a login that matches a *disabled* stored identity with
a verifying password receives a token; the code never fails with
`InactiveAccount` at login, contradicting the claim. -/
theorem claim_C1_counterexample :
    malloryRow.disabled = true ∧
    login_for_access_token verifyId true [malloryRow] "DH" "mallory" "pw"
      = .token "mallory" :=
  ⟨rfl, rfl⟩

/-- C1 (amended): if the username matches a stored or fallback identity and
the password verifies against no matching stored row's hash and (when the
username is the fallback identity) not against the fallback hash either, the
login fails with `InvalidCredentials` (401).  The `disabled` flag is not
checked at login: whenever the DB path matches and the password verifies,
a token is returned even for a disabled identity. -/
theorem claim_C1_amended (verify : String → String → Bool) (dbOk : Bool)
    (db : List DbUser) (demoHash : String) (username password : String)
    (hu : username ≠ "") (hp : password ≠ "") :
    (((∃ u ∈ db, u.username = username) ∨ username = "doc_user") →
      (∀ u ∈ db, u.username = username → verify password u.password_hash = false) →
      (username = "doc_user" → verify password demoHash = false) →
      login_for_access_token verify dbOk db demoHash username password
        = .invalidCredentials) ∧
    (∀ u, dbOk = true → firstUserByUsername db username = some u →
      verify password u.password_hash = true →
      login_for_access_token verify dbOk db demoHash username password
        = .token username) := by
  constructor
  · intro _hmatch hnover hnodemo
    unfold login_for_access_token
    rw [if_neg (by simp [hu, hp])]
    have hdbHit :
        (if dbOk then
          match firstUserByUsername db username with
          | some u => verify password u.password_hash
          | none => false
        else false) = false := by
      cases dbOk with
      | false => rfl
      | true =>
        simp only [if_true]
        cases hfind : firstUserByUsername db username with
        | none => rfl
        | some u =>
          have hmem : u ∈ db ∧ u.username = username := by
            have h1 := List.find?_some hfind
            have h2 := List.mem_of_find?_eq_some hfind
            exact ⟨h2, by simpa using h1⟩
          exact hnover u hmem.1 hmem.2
    rw [hdbHit]
    simp only [Bool.false_eq_true, if_false]
    unfold FAKE_USERS_DB
    by_cases hdoc : username = "doc_user"
    · rw [if_pos (by simp [hdoc])]
      simp only
      rw [hnodemo hdoc]
      simp
    · rw [if_neg (by simpa using hdoc)]
  · intro u hdbOk hfind hver
    unfold login_for_access_token
    rw [if_neg (by simp [hu, hp])]
    have hdbHit :
        (if dbOk then
          match firstUserByUsername db username with
          | some u => verify password u.password_hash
          | none => false
        else false) = true := by
      rw [hdbOk]
      simp only [if_true]
      rw [hfind]
      exact hver
    rw [hdbHit]
    simp

/-- Witness for C1 (amended) at concrete inputs: a wrong password against the
only stored row is rejected with 401, and the disabled row from the
counterexample setup receives a token when the password verifies. -/
theorem claim_C1_amended_witness :
    login_for_access_token verifyId true [malloryRow] "DH" "mallory" "bad"
      = .invalidCredentials ∧
    login_for_access_token verifyId true [malloryRow] "DH" "mallory" "pw"
      = .token "mallory" := by
  have h := claim_C1_amended verifyId true [malloryRow] "DH" "mallory" "bad"
    (by decide) (by decide)
  have h2 := claim_C1_amended verifyId true [malloryRow] "DH" "mallory" "pw"
    (by decide) (by decide)
  constructor
  · exact h.1 (Or.inl ⟨malloryRow, by decide, by decide⟩)
      (by decide) (by decide)
  · exact h2.2 malloryRow rfl (by decide) (by decide)

/-! ## Authorization middleware (`backend/auth.py` `get_current_user`,
`backend/admin_api.py` `require_admin`, `backend/main.py` `reload_model`) -/

inductive AuthErr
  | unauthorized
  | inactiveUser
deriving DecidableEq

/-- The identity dict `{user_id, username, role}` returned by
`get_current_user`. -/
structure CurrentUser where
  user_id : String
  username : String
  role : String
deriving DecidableEq

/-- The `try`-block of `get_current_user`: the DB-backed identity, or `none`
when it falls through to the fallback.  The block runs inside
`try ... except Exception: pass`, so a failing session (`dbOk = false`), a
missing row, and the 400 raised for a disabled DB row are all swallowed
(`none` here). -/
def dbIdentity (dbOk : Bool) (db : List DbUser) (uid : String) :
    Option CurrentUser :=
  if dbOk then
    match firstUserByUsername db uid with
    | some u =>
        if u.disabled then none
        else some ⟨u.username, u.full_name.getD u.username, u.role⟩
    | none => none
  else none

/-- The in-memory fallback tail of `get_current_user`: the demo identity is
returned with the hard-coded role `"doctor"`; an unknown subject is 401. -/
def fallbackIdentity (demoHash : String) (uid : String) :
    Except AuthErr CurrentUser :=
  match FAKE_USERS_DB demoHash uid with
  | none => .error .unauthorized
  | some fu =>
      if fu.disabled then .error .inactiveUser
      else .ok ⟨uid, fu.full_name, "doctor"⟩

/-- `get_current_user` from `backend/auth.py`.  `tokenSub` is the result of
decoding the bearer token (`none` models a JWT error or a missing `sub`
claim). -/
def get_current_user (demoHash : String) (tokenSub : Option String)
    (dbOk : Bool) (db : List DbUser) : Except AuthErr CurrentUser :=
  match tokenSub with
  | none => .error .unauthorized
  | some uid =>
    match dbIdentity dbOk db uid with
    | some ident => .ok ident
    | none => fallbackIdentity demoHash uid

inductive Forbidden
  | forbidden
deriving DecidableEq

/-- `require_admin` from `backend/admin_api.py`: 403 unless role is admin. -/
def require_admin (cu : CurrentUser) : Except Forbidden CurrentUser :=
  if cu.role = "admin" then .ok cu else .error .forbidden

/-- The RBAC gate of `reload_model` in `backend/main.py` (the reload itself
is delegated to the model service). -/
def reload_model_gate (cu : CurrentUser) : Except Forbidden Unit :=
  if cu.role = "admin" then .ok () else .error .forbidden

/-- C10: whenever the middleware resolves a subject through the in-memory
fallback (the DB lookup fails or finds no matching row), the returned
identity carries role `"doctor"`, and is therefore rejected with 403 by
`require_admin` and by the reload route's RBAC gate. -/
theorem claim_C10_fallback_role_doctor (demoHash : String) (uid : String)
    (dbOk : Bool) (db : List DbUser) (ident : CurrentUser)
    (hfb : dbOk = false ∨ firstUserByUsername db uid = none)
    (hok : get_current_user demoHash (some uid) dbOk db = .ok ident) :
    ident.role = "doctor" ∧
    require_admin ident = .error .forbidden ∧
    reload_model_gate ident = .error .forbidden := by
  have hdbResult : dbIdentity dbOk db uid = none := by
    unfold dbIdentity
    rcases hfb with h | h
    · rw [h]
      rfl
    · cases dbOk
      · rfl
      · simp only [if_true]
        rw [h]
  have hfal : fallbackIdentity demoHash uid = .ok ident := by
    simp only [get_current_user, hdbResult] at hok
    exact hok
  have hrole : ident.role = "doctor" := by
    unfold fallbackIdentity FAKE_USERS_DB at hfal
    by_cases hdoc : uid = "doc_user"
    · rw [if_pos (by simp [hdoc])] at hfal
      simp only [Bool.false_eq_true, if_false, Except.ok.injEq] at hfal
      rw [← hfal]
    · rw [if_neg (by simpa using hdoc)] at hfal
      exact absurd hfal (by simp)
  refine ⟨hrole, ?_, ?_⟩
  · unfold require_admin
    rw [if_neg (by rw [hrole]; decide)]
  · unfold reload_model_gate
    rw [if_neg (by rw [hrole]; decide)]

/-- Witness for C10: resolving `doc_user` against an empty database yields
the fallback doctor identity, which both admin gates reject. -/
theorem claim_C10_fallback_role_doctor_witness :
    (⟨"doc_user", "Dr. Alice Onco", "doctor"⟩ : CurrentUser).role = "doctor" ∧
    require_admin ⟨"doc_user", "Dr. Alice Onco", "doctor"⟩ = .error .forbidden ∧
    reload_model_gate ⟨"doc_user", "Dr. Alice Onco", "doctor"⟩ = .error .forbidden :=
  claim_C10_fallback_role_doctor "DH" "doc_user" true []
    ⟨"doc_user", "Dr. Alice Onco", "doctor"⟩ (Or.inr rfl) rfl

/-! ## CRUD and admin routes (`backend/crud.py`, `backend/admin_api.py`)

The relational stores are modelled as lists of rows in insertion order;
`.first()` of an ORM select is the head / first match, and committing a
mutation of the fetched row updates that row in place. -/

/-- `set_user_role` from `backend/crud.py`: looks up the row by username; on
miss returns `None` leaving the store as is; on hit mutates that row's role
and commits.  Returns the refreshed row and the new store. -/
def set_user_role (db : List DbUser) (username role : String) :
    Option DbUser × List DbUser :=
  match firstUserByUsername db username with
  | none => (none, db)
  | some u =>
      let u2 : DbUser := { u with role := role }
      (some u2,
        db.map (fun x => if x.username == username then { x with role := role } else x))

inductive AdminErr
  | notFound
deriving DecidableEq

/-- `admin_set_role` from `backend/admin_api.py`: 404 when `set_user_role`
found no row. -/
def admin_set_role (db : List DbUser) (username role : String) :
    Except AdminErr DbUser × List DbUser :=
  match set_user_role db username role with
  | (none, db2) => (.error .notFound, db2)
  | (some u, db2) => (.ok u, db2)

/-- C7: for every username with no matching `User` row, the admin role-update
route returns 404 and leaves every row of the store unchanged. -/
theorem claim_C7_role_update_missing_user (db : List DbUser)
    (username role : String)
    (h : ∀ u ∈ db, u.username ≠ username) :
    admin_set_role db username role = (.error .notFound, db) := by
  have hfind : firstUserByUsername db username = none := by
    unfold firstUserByUsername
    rw [List.find?_eq_none]
    intro u hu
    simpa using h u hu
  unfold admin_set_role set_user_role
  rw [hfind]

/-- Witness for C7: updating a role for an absent username against the
one-row store leaves it untouched and reports 404. -/
theorem claim_C7_role_update_missing_user_witness :
    admin_set_role [malloryRow] "ghost" "admin" = (.error .notFound, [malloryRow]) :=
  claim_C7_role_update_missing_user [malloryRow] "ghost" "admin"
    (by intro u hu; simp at hu; subst hu; decide)

/-! ## Company profile upsert (`backend/crud.py`) -/

structure CompanyProfile where
  id : Option ℕ
  name : String
  address : String
  contact_email : String
  logo_url : String
deriving DecidableEq

structure CompanyIn where
  name : String
  address : String
  contact_email : String
  logo_url : String
deriving DecidableEq

/-- `upsert_company_profile` from `backend/crud.py`: `.first()` of the select
is the head of the store; a missing row is created (the commit assigns the
primary key), an existing row is mutated in place. -/
def upsert_company_profile (store : List CompanyProfile) (p : CompanyIn) :
    CompanyProfile × List CompanyProfile :=
  match store with
  | [] =>
      let prof : CompanyProfile := ⟨some 1, p.name, p.address, p.contact_email, p.logo_url⟩
      (prof, [prof])
  | r :: rest =>
      let r2 : CompanyProfile :=
        { r with name := p.name, address := p.address
                 contact_email := p.contact_email, logo_url := p.logo_url }
      (r2, r2 :: rest)

/-- `get_company_profile` from `backend/crud.py`: `.first()` of the select. -/
def get_company_profile (store : List CompanyProfile) : Option CompanyProfile :=
  store.head?

/-- The store after a sequence of POST `/admin/company` upserts, starting
from the empty table (only the upsert ever creates rows). -/
def upsertAll (posts : List CompanyIn) : List CompanyProfile :=
  posts.foldl (fun s p => (upsert_company_profile s p).2) []

lemma upsert_length (store : List CompanyProfile) (p : CompanyIn) :
    (upsert_company_profile store p).2.length = max store.length 1 := by
  cases store with
  | nil => rfl
  | cons r rest => simp [upsert_company_profile]

lemma upsertAll_from_length (posts : List CompanyIn)
    (store : List CompanyProfile) (h : store.length ≤ 1) :
    (posts.foldl (fun s p => (upsert_company_profile s p).2) store).length ≤ 1 := by
  induction posts generalizing store with
  | nil => simpa using h
  | cons p rest ih =>
      apply ih
      rw [upsert_length]
      omega

lemma upsertAll_from_head_name (posts : List CompanyIn)
    (store : List CompanyProfile) (hne : posts ≠ []) :
    ((posts.foldl (fun s p => (upsert_company_profile s p).2) store).head?).map
        CompanyProfile.name
      = posts.getLast?.map CompanyIn.name := by
  induction posts generalizing store with
  | nil => exact absurd rfl hne
  | cons p rest ih =>
      cases rest with
      | nil =>
          cases store with
          | nil => rfl
          | cons r rtl => rfl
      | cons q rtl =>
          rw [List.foldl_cons]
          rw [ih (upsert_company_profile store p).2 (by simp)]
          rw [List.getLast?_cons_cons]

/-- C8: after any sequence of company-profile upserts starting from the empty
table, at most one row exists, and a GET returns the name supplied by the
most recent POST. -/
theorem claim_C8_company_singleton_upsert (posts : List CompanyIn) :
    (upsertAll posts).length ≤ 1 ∧
    (get_company_profile (upsertAll posts)).map CompanyProfile.name
      = posts.getLast?.map CompanyIn.name := by
  constructor
  · exact upsertAll_from_length posts [] (by simp)
  · cases hp : posts with
    | nil => rfl
    | cons p rest =>
        unfold upsertAll get_company_profile
        rw [← hp, upsertAll_from_head_name posts [] (by rw [hp]; simp)]

/-! ## Upload filename sanitization (`backend/main.py` lines 129-130)

`safe_name = filename.replace('..', '').replace('/', '_')`.  Python
`str.replace` scans left to right replacing non-overlapping occurrences;
for the two-character pattern this is `removeDotDot`, and for the
single-character pattern it is a character map. -/

/-- `filename.replace('..', '')`: left-to-right removal of non-overlapping
`".."` occurrences. -/
def removeDotDot : List Char → List Char
  | [] => []
  | [c] => [c]
  | c1 :: c2 :: rest =>
      if c1 = '.' ∧ c2 = '.' then removeDotDot rest
      else c1 :: removeDotDot (c2 :: rest)

/-- `.replace('/', '_')` on the result. -/
def slashToUnderscore (s : List Char) : List Char :=
  s.map (fun c => if c = '/' then '_' else c)

/-- The `safe_name` computed by `predict_scan`. -/
def sanitize_filename (s : String) : String :=
  ⟨slashToUnderscore (removeDotDot s.data)⟩

/-- Whether the list contains two consecutive dots. -/
def hasDotDot : List Char → Bool
  | c1 :: c2 :: rest => (c1 == '.' && c2 == '.') || hasDotDot (c2 :: rest)
  | _ => false

lemma slash_not_mem (s : List Char) : '/' ∉ slashToUnderscore s := by
  unfold slashToUnderscore
  intro hmem
  rcases List.mem_map.mp hmem with ⟨a, _, ha⟩
  by_cases h : a = '/'
  · rw [if_pos h] at ha
    exact absurd ha (by decide)
  · rw [if_neg h] at ha
    exact h ha

lemma mapSlash_dot (c : Char) : ((if c = '/' then '_' else c) == '.') = (c == '.') := by
  by_cases h : c = '/'
  · rw [if_pos h]
    subst h
    decide
  · rw [if_neg h]

lemma hasDotDot_slashToUnderscore (l : List Char) :
    hasDotDot (slashToUnderscore l) = hasDotDot l := by
  induction l with
  | nil => rfl
  | cons c1 tl ih =>
      cases tl with
      | nil => rfl
      | cons c2 rest =>
          show (((if c1 = '/' then '_' else c1) == '.' &&
              (if c2 = '/' then '_' else c2) == '.') ||
              hasDotDot (slashToUnderscore (c2 :: rest)))
            = ((c1 == '.' && c2 == '.') || hasDotDot (c2 :: rest))
          rw [mapSlash_dot c1, mapSlash_dot c2, ih]

lemma removeDotDot_head_ne (c2 : Char) (rest : List Char) (h : c2 ≠ '.') :
    (removeDotDot (c2 :: rest)).head? = some c2 := by
  cases rest with
  | nil => rfl
  | cons c3 r2 =>
      rw [removeDotDot, if_neg (fun hc => h hc.1)]
      rfl

lemma hasDotDot_removeDotDot (s : List Char) :
    hasDotDot (removeDotDot s) = false := by
  induction s using removeDotDot.induct with
  | case1 => rfl
  | case2 c => rfl
  | case3 c1 c2 rest h ih =>
      rw [removeDotDot, if_pos h]
      exact ih
  | case4 c1 c2 rest h ih =>
      rw [removeDotDot, if_neg h]
      by_cases hc1 : c1 = '.'
      · subst hc1
        have hc2 : c2 ≠ '.' := fun hc => h ⟨rfl, hc⟩
        have hh := removeDotDot_head_ne c2 rest hc2
        cases hR : removeDotDot (c2 :: rest) with
        | nil => rfl
        | cons d R2 =>
            rw [hR] at hh ih
            have hd : d = c2 := by simpa using hh
            show ((('.' : Char) == '.' && d == '.') || hasDotDot (d :: R2)) = false
            rw [ih, hd]
            simp [hc2]
      · cases hR : removeDotDot (c2 :: rest) with
        | nil => rfl
        | cons d R2 =>
            rw [hR] at ih
            show ((c1 == '.' && d == '.') || hasDotDot (d :: R2)) = false
            rw [ih]
            simp [hc1]

lemma hasDotDot_of_dotdot (l : List Char) (h : ['.', '.'] <:+: l) :
    hasDotDot l = true := by
  rcases h with ⟨s, t, heq⟩
  subst heq
  induction s with
  | nil => rfl
  | cons a s2 ih =>
      simp only [List.cons_append]
      cases hmid : s2 ++ ['.', '.'] ++ t with
      | nil => exact absurd hmid (by simp)
      | cons b l2 =>
          rw [hmid] at ih
          show ((a == '.' && b == '.') || hasDotDot (b :: l2)) = true
          rw [ih]
          simp

/-- Modelled contract of `os.path.abspath(os.path.join(dir, name))` on POSIX
for a single path component `name` (no `'/'` inside): `""` and `"."` resolve
to the directory itself, `".."` to its parent, anything else to a child. -/
def resolve_under (dir : List String) (name : String) : List String :=
  if name = "" ∨ name = "." then dir
  else if name = ".." then dir.dropLast
  else dir ++ [name]

/-- C5: for every uploaded filename, the sanitized component contains no
`'/'` and no `".."` sequence, and the resolved path stays inside the uploads
directory (the directory's components are a prefix of the resolved path). -/
theorem claim_C5_sanitized_upload_path (filename : String) (dir : List String) :
    '/' ∉ (sanitize_filename filename).data ∧
    ¬ (['.', '.'] <:+: (sanitize_filename filename).data) ∧
    dir <+: resolve_under dir (sanitize_filename filename) := by
  have hno : hasDotDot (sanitize_filename filename).data = false := by
    show hasDotDot (slashToUnderscore (removeDotDot filename.data)) = false
    rw [hasDotDot_slashToUnderscore]
    exact hasDotDot_removeDotDot filename.data
  refine ⟨slash_not_mem (removeDotDot filename.data), ?_, ?_⟩
  · intro hinf
    rw [hasDotDot_of_dotdot _ hinf] at hno
    exact absurd hno (by decide)
  · unfold resolve_under
    split_ifs with h1 h2
    · exact ⟨[], by simp⟩
    · exfalso
      rw [congrArg String.data h2] at hno
      exact absurd hno (by decide)
    · exact ⟨[sanitize_filename filename], rfl⟩

/-! ## Audit log tail (`backend/admin_api.py` `admin_list_audits`) -/

/-- One data row of `audit_log.csv` (the `DictWriter` field names). -/
structure AuditRecord where
  audit_id : String
  user_id : String
  filename : String
  saved_path : String
  processing_time_seconds : ℚ
deriving DecidableEq

/-- Python list slice `xs[k:]`, including the negative-index convention. -/
def pySliceFrom {α : Type} (xs : List α) (k : ℤ) : List α :=
  if k < 0 then xs.drop ((xs.length : ℤ) + k).toNat else xs.drop k.toNat

/-- `admin_list_audits` from `backend/admin_api.py`: an absent file yields
`[]`; otherwise the parsed data rows are sliced as `all_rows[-limit:]`. -/
def admin_list_audits (fileExists : Bool) (rows : List AuditRecord)
    (limit : ℤ) : List AuditRecord :=
  if fileExists = false then [] else pySliceFrom rows (-limit)

/-- A concrete audit row for the C6 counterexample and witness. -/
def sampleAudit : AuditRecord := ⟨"a1", "doc_user", "scan.png", "uploads/scan.png", 0⟩

/-- C6 counterexample: with `limit = 0` and one data row the route returns
the whole file (Python `xs[-0:] = xs`), not the last `min(0, 1) = 0`
records demanded by the claim. -/
theorem claim_C6_counterexample :
    (admin_list_audits true [sampleAudit] 0).length = 1 ∧
    min (0 : ℕ) [sampleAudit].length = 0 :=
  ⟨rfl, rfl⟩

/-- C6 (amended): for every *positive* limit the route returns exactly the
last `min(limit, n)` records in file order; for `limit = 0` it returns all
`n` records. -/
theorem claim_C6_amended_tail (rows : List AuditRecord) (limit : ℤ)
    (h : 1 ≤ limit) :
    admin_list_audits true rows limit = rows.drop (rows.length - limit.toNat) ∧
    (admin_list_audits true rows limit).length = min limit.toNat rows.length ∧
    admin_list_audits true rows 0 = rows := by
  have hmain : admin_list_audits true rows limit
      = rows.drop (rows.length - limit.toNat) := by
    unfold admin_list_audits pySliceFrom
    rw [if_neg (by decide : ¬(true = false))]
    rw [if_pos (by omega : -limit < 0)]
    congr 1
    omega
  refine ⟨hmain, ?_, ?_⟩
  · rw [hmain, List.length_drop]
    omega
  · unfold admin_list_audits pySliceFrom
    rw [if_neg (by decide : ¬(true = false))]
    norm_num

/-- Witness for C6 (amended) at one row and `limit = 1`. -/
theorem claim_C6_amended_tail_witness :
    admin_list_audits true [sampleAudit] 1
      = [sampleAudit].drop ([sampleAudit].length - (1 : ℤ).toNat) ∧
    (admin_list_audits true [sampleAudit] 1).length
      = min (1 : ℤ).toNat [sampleAudit].length ∧
    admin_list_audits true [sampleAudit] 0 = [sampleAudit] :=
  claim_C6_amended_tail [sampleAudit] 1 (by norm_num)

/-! ## Prediction pipeline (`backend/main.py` `predict_scan`)

`decodeOutcome` is the result of `load_image_from_bytes` (`none` models any
raised decode exception); `base` is `random.random()` inside the model
service; `rFallback` is `random.uniform(0.01, 0.99)` drawn on the fallback
path; `genName` is the generated `upload_<uuid>` name; `ptime` the measured
processing time; `auditId` the generated audit identifier. -/

/-- Python `round(x, 3)` (used for `processing_time_seconds`). -/
def pyRound3 (q : ℚ) : ℚ := (pyRoundHalfEven (q * 1000) : ℚ) / 1000

structure DiagnosisResult where
  audit_id : String
  user_id : String
  scan_modality : String
  filename : String
  primary_finding : String
  probability_malignancy : ℚ
  processing_time_seconds : ℚ
deriving DecidableEq

def predict_scan {Img : Type} (ms : ModelService) (base rFallback : ℚ)
    (decodeOutcome : Option (Img × String)) (user : CurrentUser)
    (filename0 genName auditId : String) (ptime : ℚ)
    (audits : List AuditRecord) :
    Except ModelErr (DiagnosisResult × List AuditRecord) :=
  match decodeOutcome with
  | some (img, modality) =>
      match ms.predict base img with
      | .error e => .error e
      | .ok pred =>
          .ok (⟨auditId, user.user_id, modality,
                if filename0 = "" then genName else filename0,
                pred.primary_finding, pred.probability, pyRound3 ptime⟩,
              audits ++ [⟨auditId, user.user_id,
                if filename0 = "" then genName else filename0,
                "uploads/" ++
                  sanitize_filename (if filename0 = "" then genName else filename0),
                pyRound3 ptime⟩])
  | none =>
      .ok (⟨auditId, user.user_id, "Unknown",
            if filename0 = "" then genName else filename0,
            "no acute findings", pyRound4 rFallback, pyRound3 ptime⟩,
          audits ++ [⟨auditId, user.user_id,
            if filename0 = "" then genName else filename0,
            "uploads/" ++
              sanitize_filename (if filename0 = "" then genName else filename0),
            pyRound3 ptime⟩])

/-- C2: when decoding the upload raises, `predict_scan` still succeeds,
substituting a synthetic probability (`round(uniform(0.01, 0.99), 4)`) and
the default finding; the modality is reported as `"Unknown"`. -/
theorem claim_C2_decode_failure_recovered {Img : Type} (ms : ModelService)
    (base rFallback : ℚ) (decodeOutcome : Option (Img × String))
    (user : CurrentUser) (filename0 genName auditId : String) (ptime : ℚ)
    (audits : List AuditRecord)
    (hfail : decodeOutcome = none) :
    ∃ res rows, predict_scan ms base rFallback decodeOutcome user
        filename0 genName auditId ptime audits = .ok (res, rows) ∧
      res.primary_finding = "no acute findings" ∧
      res.probability_malignancy = pyRound4 rFallback ∧
      res.scan_modality = "Unknown" := by
  subst hfail
  exact ⟨_, _, rfl, rfl, rfl, rfl⟩

/-- Witness for C2 at concrete inputs (simulate service, empty audit log). -/
theorem claim_C2_decode_failure_recovered_witness :
    ∃ res rows, predict_scan ⟨Backend.simulate, true, 0⟩ 0 (1/2)
        (none : Option (Unit × String)) ⟨"doc_user", "Dr. Alice Onco", "doctor"⟩
        "scan.png" "upload_0" "a1" 0 [] = .ok (res, rows) ∧
      res.primary_finding = "no acute findings" ∧
      res.probability_malignancy = pyRound4 (1/2) ∧
      res.scan_modality = "Unknown" :=
  claim_C2_decode_failure_recovered ⟨Backend.simulate, true, 0⟩ 0 (1/2) none
    ⟨"doc_user", "Dr. Alice Onco", "doctor"⟩ "scan.png" "upload_0" "a1" 0 [] rfl

/-- The probability of any successful `ModelService.predict` lies in
`[0, 1]`, for either backend. -/
lemma predict_prob_bounds {Img : Type} (ms : ModelService) (base : ℚ)
    (img : Img) (pred : Prediction) (h0 : 0 ≤ base) (h1 : base < 1)
    (hp : ms.predict base img = .ok pred) :
    0 ≤ pred.probability ∧ pred.probability ≤ 1 := by
  unfold ModelService.predict at hp
  split at hp
  · exact absurd hp (by simp)
  · simp only [Except.ok.injEq] at hp
    subst hp
    cases hb : ms.backend with
    | torch => exact ⟨clamp01_nonneg _, clamp01_le_one _⟩
    | simulate => exact simulate_prob_bounds base h0 h1

/-- C3: every successful `/predict` response carries a
`probability_malignancy` in `[0, 1]`, on the simulator path, the clamped
torch path, and the decode-failure fallback alike. -/
theorem claim_C3_probability_in_unit_interval {Img : Type} (ms : ModelService)
    (base rFallback : ℚ) (decodeOutcome : Option (Img × String))
    (user : CurrentUser) (filename0 genName auditId : String) (ptime : ℚ)
    (audits : List AuditRecord) (res : DiagnosisResult)
    (rows : List AuditRecord)
    (h0 : 0 ≤ base) (h1 : base < 1)
    (hr0 : 1/100 ≤ rFallback) (hr1 : rFallback ≤ 99/100)
    (hok : predict_scan ms base rFallback decodeOutcome user
        filename0 genName auditId ptime audits = .ok (res, rows)) :
    0 ≤ res.probability_malignancy ∧ res.probability_malignancy ≤ 1 := by
  cases decodeOutcome with
  | none =>
      simp only [predict_scan, Except.ok.injEq, Prod.mk.injEq] at hok
      have hres := hok.1
      rw [← hres]
      constructor
      · have := le_pyRound4 rFallback
        simp only
        linarith
      · have := pyRound4_le rFallback
        simp only
        linarith
  | some im =>
      rcases im with ⟨img, modality⟩
      simp only [predict_scan] at hok
      cases hp : ms.predict base img with
      | error e =>
          rw [hp] at hok
          exact absurd hok (by simp)
      | ok pred =>
          rw [hp] at hok
          simp only [Except.ok.injEq, Prod.mk.injEq] at hok
          have hres := hok.1
          rw [← hres]
          exact predict_prob_bounds ms base img pred h0 h1 hp

/-- Witness for C3 on the decode-failure path at concrete inputs. -/
theorem claim_C3_probability_in_unit_interval_witness :
    0 ≤ (⟨"a1", "doc_user", "Unknown", "scan.png", "no acute findings",
          pyRound4 (1/2), pyRound3 0⟩ : DiagnosisResult).probability_malignancy ∧
    (⟨"a1", "doc_user", "Unknown", "scan.png", "no acute findings",
          pyRound4 (1/2), pyRound3 0⟩ : DiagnosisResult).probability_malignancy ≤ 1 :=
  claim_C3_probability_in_unit_interval ⟨Backend.simulate, true, 0⟩
    0 (1/2) (none : Option (Unit × String)) ⟨"doc_user", "Dr. Alice Onco", "doctor"⟩ "scan.png" "upload_0"
    "a1" 0 []
    ⟨"a1", "doc_user", "Unknown", "scan.png", "no acute findings",
      pyRound4 (1/2), pyRound3 0⟩
    [⟨"a1", "doc_user", "scan.png",
      "uploads/" ++ sanitize_filename "scan.png", pyRound3 0⟩]
    (by norm_num) (by norm_num) (by norm_num) (by norm_num) rfl

/-! ## DICOM pixel normalization (`backend/utils_dicom.py`)

`load_image_from_bytes` on the `.dcm` path reads an integer pixel array,
and when `arr.max() > arr.min()` rescales it as
`(arr - arr_min) * (255.0 / (arr_max - arr_min))` before `astype("uint8")`;
when the array is constant it skips the rescale and the original values are
converted to `uint8` directly (wrapping modulo 256).  The array is modelled
as a flat list of integers; `astype("uint8")` of the nonnegative rescaled
floats is truncation, i.e. the floor. -/

/-- `arr.min()` of a numpy array, as a fold over the flat list. -/
def listMin : List ℤ → ℤ
  | [] => 0
  | x :: xs => xs.foldl min x

/-- `arr.max()` of a numpy array, as a fold over the flat list. -/
def listMax : List ℤ → ℤ
  | [] => 0
  | x :: xs => xs.foldl max x

/-- The pixel transformation of the `.dcm` branch of
`load_image_from_bytes`, ending in `astype("uint8")`. -/
def dicom_normalize (a : List ℤ) : List ℤ :=
  if listMin a < listMax a then
    a.map (fun v : ℤ => ⌊((v : ℚ) - listMin a) * (255 / ((listMax a : ℚ) - listMin a))⌋)
  else
    a.map (fun v : ℤ => v % 256)

lemma foldl_min_le_acc (xs : List ℤ) (x : ℤ) : xs.foldl min x ≤ x := by
  induction xs generalizing x with
  | nil => exact le_refl x
  | cons y ys ih => exact le_trans (ih (min x y)) (min_le_left x y)

lemma foldl_min_le_mem (xs : List ℤ) (x v : ℤ) (hv : v ∈ xs) :
    xs.foldl min x ≤ v := by
  induction xs generalizing x with
  | nil => exact absurd hv (by simp)
  | cons y ys ih =>
      rcases List.mem_cons.mp hv with h | h
      · subst h
        exact le_trans (foldl_min_le_acc ys (min x v)) (min_le_right x v)
      · exact ih (min x y) h

lemma listMin_le_mem (a : List ℤ) (v : ℤ) (hv : v ∈ a) : listMin a ≤ v := by
  cases a with
  | nil => exact absurd hv (by simp)
  | cons x xs =>
      rcases List.mem_cons.mp hv with h | h
      · subst h
        exact foldl_min_le_acc xs v
      · exact foldl_min_le_mem xs x v h

lemma acc_le_foldl_max (xs : List ℤ) (x : ℤ) : x ≤ xs.foldl max x := by
  induction xs generalizing x with
  | nil => exact le_refl x
  | cons y ys ih => exact le_trans (le_max_left x y) (ih (max x y))

lemma mem_le_foldl_max (xs : List ℤ) (x v : ℤ) (hv : v ∈ xs) :
    v ≤ xs.foldl max x := by
  induction xs generalizing x with
  | nil => exact absurd hv (by simp)
  | cons y ys ih =>
      rcases List.mem_cons.mp hv with h | h
      · subst h
        exact le_trans (le_max_right x v) (acc_le_foldl_max ys (max x v))
      · exact ih (max x y) h

lemma mem_le_listMax (a : List ℤ) (v : ℤ) (hv : v ∈ a) : v ≤ listMax a := by
  cases a with
  | nil => exact absurd hv (by simp)
  | cons x xs =>
      rcases List.mem_cons.mp hv with h | h
      · subst h
        exact acc_le_foldl_max xs v
      · exact mem_le_foldl_max xs x v h

/-- C9 counterexample: the claim as stated fails twice on the code.  For the
array `[0, 1, 2]` the middle pixel is `127`, the `uint8` truncation of the
linear value `127.5`, so it is not the image of the linear map.  For the
constant array `[300, 300]` no rescale happens at all: the pixels are
`300 mod 256 = 44`, which no map sending min to 0 and max to 255 can
produce. -/
theorem claim_C9_counterexample :
    dicom_normalize [0, 1, 2] = [0, 127, 255] ∧
    ((127 : ℚ) ≠ ((1 : ℚ) - 0) * (255 / ((2 : ℚ) - 0))) ∧
    dicom_normalize [300, 300] = [44, 44] ∧
    (44 : ℤ) ≠ 0 ∧ (44 : ℤ) ≠ 255 := by
  refine ⟨?_, by norm_num, by decide, by norm_num, by norm_num⟩
  have hmin : listMin [0, 1, 2] = 0 := by decide
  have hmax : listMax [0, 1, 2] = 2 := by decide
  unfold dicom_normalize
  rw [hmin, hmax]
  norm_num [Int.floor_eq_iff]

/-- C9 (amended): on the DICOM decode path, for arrays whose max exceeds
their min, every produced pixel is the `uint8` truncation (floor) of the
linear map sending min to 0 and max to 255, and lies in `[0, 255]`; pixels
equal to the min map to 0 and pixels equal to the max map to 255.  Constant
arrays bypass the rescale: their values are converted to `uint8` directly
(reduced modulo 256, hence still in `[0, 255]`). -/
theorem claim_C9_amended_dicom_rescale (a : List ℤ)
    (hlt : listMin a < listMax a) :
    (dicom_normalize a
      = a.map (fun v : ℤ =>
          ⌊((v : ℚ) - listMin a) * (255 / ((listMax a : ℚ) - listMin a))⌋)) ∧
    (∀ p ∈ dicom_normalize a, 0 ≤ p ∧ p ≤ 255) ∧
    (∀ v ∈ a, v = listMin a →
      ⌊((v : ℚ) - listMin a) * (255 / ((listMax a : ℚ) - listMin a))⌋ = 0) ∧
    (∀ v ∈ a, v = listMax a →
      ⌊((v : ℚ) - listMin a) * (255 / ((listMax a : ℚ) - listMin a))⌋ = 255) ∧
    (∀ b : List ℤ, ¬ listMin b < listMax b →
      dicom_normalize b = b.map (fun v : ℤ => v % 256) ∧
      ∀ p ∈ dicom_normalize b, 0 ≤ p ∧ p ≤ 255) := by
  have hdenom : (0 : ℚ) < (listMax a : ℚ) - (listMin a : ℚ) := by
    have h := hlt
    rw [← @Int.cast_lt ℚ] at h
    linarith
  have hne : ((listMax a : ℚ) - (listMin a : ℚ)) ≠ 0 := ne_of_gt hdenom
  have heq : dicom_normalize a
      = a.map (fun v : ℤ =>
          ⌊((v : ℚ) - listMin a) * (255 / ((listMax a : ℚ) - listMin a))⌋) := by
    unfold dicom_normalize
    rw [if_pos hlt]
  refine ⟨heq, ?_, ?_, ?_, ?_⟩
  · intro p hp
    rw [heq] at hp
    rcases List.mem_map.mp hp with ⟨v, hv, hpv⟩
    have hmn : (listMin a : ℚ) ≤ (v : ℚ) := by
      exact_mod_cast listMin_le_mem a v hv
    have hmx : (v : ℚ) ≤ (listMax a : ℚ) := by
      exact_mod_cast mem_le_listMax a v hv
    have hval0 : (0 : ℚ) ≤ ((v : ℚ) - listMin a) * (255 / ((listMax a : ℚ) - listMin a)) := by
      apply mul_nonneg
      · linarith
      · positivity
    have hval1 : ((v : ℚ) - listMin a) * (255 / ((listMax a : ℚ) - listMin a)) ≤ 255 := by
      rw [show ((v : ℚ) - listMin a) * (255 / ((listMax a : ℚ) - listMin a))
          = ((v : ℚ) - listMin a) * 255 / ((listMax a : ℚ) - listMin a) from by ring]
      rw [div_le_iff₀ hdenom]
      nlinarith
    constructor
    · rw [← hpv]
      exact Int.floor_nonneg.mpr hval0
    · rw [← hpv]
      have h255 : ⌊((v : ℚ) - listMin a) * (255 / ((listMax a : ℚ) - listMin a))⌋
          ≤ ⌊(255 : ℚ)⌋ := Int.floor_le_floor hval1
      simpa using h255
  · intro v _ hvmin
    subst hvmin
    simp
  · intro v _ hvmax
    subst hvmax
    rw [show ((listMax a : ℚ) - (listMin a : ℚ)) * (255 / ((listMax a : ℚ) - (listMin a : ℚ)))
        = (255 : ℚ) from by field_simp]
    rw [show (255 : ℚ) = ((255 : ℤ) : ℚ) from by norm_num]
    exact Int.floor_intCast 255
  · intro b hnb
    have heqb : dicom_normalize b = b.map (fun v : ℤ => v % 256) := by
      unfold dicom_normalize
      rw [if_neg hnb]
    refine ⟨heqb, ?_⟩
    intro p hp
    rw [heqb] at hp
    rcases List.mem_map.mp hp with ⟨v, _, hpv⟩
    rw [← hpv]
    omega

/-- Witness for C9 (amended) at the concrete array `[0, 1, 2]`. -/
theorem claim_C9_amended_dicom_rescale_witness :
    (dicom_normalize [0, 1, 2]
      = [0, 1, 2].map (fun v : ℤ => ⌊((v : ℚ) - listMin [0, 1, 2]) *
          (255 / ((listMax [0, 1, 2] : ℚ) - listMin [0, 1, 2]))⌋)) ∧
    (∀ p ∈ dicom_normalize [0, 1, 2], 0 ≤ p ∧ p ≤ 255) ∧
    (∀ v ∈ ([0, 1, 2] : List ℤ), v = listMin [0, 1, 2] →
      ⌊((v : ℚ) - listMin [0, 1, 2]) *
        (255 / ((listMax [0, 1, 2] : ℚ) - listMin [0, 1, 2]))⌋ = 0) ∧
    (∀ v ∈ ([0, 1, 2] : List ℤ), v = listMax [0, 1, 2] →
      ⌊((v : ℚ) - listMin [0, 1, 2]) *
        (255 / ((listMax [0, 1, 2] : ℚ) - listMin [0, 1, 2]))⌋ = 255) ∧
    (∀ b : List ℤ, ¬ listMin b < listMax b →
      dicom_normalize b = b.map (fun v : ℤ => v % 256) ∧
      ∀ p ∈ dicom_normalize b, 0 ≤ p ∧ p ≤ 255) :=
  claim_C9_amended_dicom_rescale [0, 1, 2] (by decide)

end OncoScan
